import Mathlib

/-!
# Verification of the c-store storage backends

This file embeds the two storage backends of the c-store repository:

* the *Document Backend* (`lib/storage.js`, file-based): the whole dataset is
  one JSON document; every operation is a read–decode–mutate–encode–write
  cycle over that document;
* the *Indexed Backend* (`lib/storage.js`, sqlite-based): the dataset is one
  relational table `key_value_store(namespace, key, value)` with primary key
  `(namespace, key)`, values stored as serialized JSON text.

JavaScript objects used as string-keyed dictionaries are embedded as
insertion-ordered association lists.  The JSON codec (`JSON.stringify` /
`JSON.parse`) is abstracted at the point where the code uses it: a persisted
document is empty text, well-formed text (the encoding of a document), or
malformed text; a persisted row value is the encoding of a JSON value or raw
text that does not parse.
-/

set_option autoImplicit false

namespace CStore

/-- A JSON-representable value: `null`, boolean, number, string, array or
object; objects are insertion-ordered association lists (numbers are embedded
as integers). The storage layer treats values as opaque. -/
inductive Json where
  | null
  | bool (b : Bool)
  | num (n : Int)
  | str (s : String)
  | arr (xs : List Json)
  | obj (fields : List (String × Json))

/-- Property lookup on a JavaScript object embedded as an association list:
the first binding of the key, if any (`data[k]`). -/
def objGet {α : Type} : List (String × α) → String → Option α
  | [], _ => none
  | (k', v) :: rest, k => if k' = k then some v else objGet rest k

/-- Property assignment `data[k] = v`: overwrites the binding in place when
the key is present, otherwise appends a new binding at the end (JavaScript
objects keep the original insertion position on overwrite). -/
def objSet {α : Type} : List (String × α) → String → α → List (String × α)
  | [], k, v => [(k, v)]
  | (k', v') :: rest, k, v =>
    if k' = k then (k', v) :: rest else (k', v') :: objSet rest k v

/-- Property deletion `delete data[k]`: removes the binding of the key. -/
def objDel {α : Type} : List (String × α) → String → List (String × α)
  | [], _ => []
  | (k', v') :: rest, k =>
    if k' = k then objDel rest k else (k', v') :: objDel rest k

/-- The decoded persisted document of the Document Backend: the top level is
keyed by namespace name, each namespace a mapping from key to value. -/
abbrev Doc : Type := List (String × List (String × Json))

/-! ## Document Backend (`lib/storage.js`, file-based)

Each operation opens `data.json`, decodes it with
`JSON.parse(text || '{}')`, mutates the decoded object, and (for mutators)
writes back `JSON.stringify(data, null, 2)`.  The functions below are the
mutate step on the decoded document; the read/decode step is `loadDoc`
further down. -/

/-- `setValue(namespace, key, value)` of the Document Backend, on the decoded
document, for a general value that may be the `undefined` sentinel (`none`).
`if (!data[namespace]) data[namespace] = {}` creates the namespace when
absent, then `data[namespace][key] = value` assigns the key; serializing with
`JSON.stringify` drops a property whose value is `undefined`, so assigning
`undefined` leaves the key absent from the persisted document (removing it if
it was present) while the namespace itself stays. -/
def docSetU (d : Doc) (ns k : String) (v : Option Json) : Doc :=
  let nsObj := (objGet d ns).getD []
  let entries := match v with
    | some j => objSet nsObj k j
    | none => objDel nsObj k
  objSet d ns entries

/-- `setValue(namespace, key, value)` of the Document Backend for a proper
JSON value. -/
def docSet (d : Doc) (ns k : String) (v : Json) : Doc :=
  docSetU d ns k (some v)

/-- `getValue(namespace, key)` of the Document Backend with a key:
`if (!data[namespace]) return undefined; return data[namespace][key]`
(a decoded namespace is an object, which is truthy even when empty). -/
def docGet1 (d : Doc) (ns k : String) : Option Json :=
  match objGet d ns with
  | none => none
  | some e => objGet e k

/-- `getValue(namespace)` of the Document Backend with the key omitted:
`if (!data[namespace]) return {}; return data[namespace]`. -/
def docGetAll (d : Doc) (ns : String) : List (String × Json) :=
  (objGet d ns).getD []

/-- `deleteValue(namespace, key)` of the Document Backend:
`if (data[namespace]) { delete data[namespace][key];
if (Object.keys(data[namespace]).length === 0) delete data[namespace]; }` —
the entry is removed and the namespace pruned when it becomes empty. -/
def docDel (d : Doc) (ns k : String) : Doc :=
  match objGet d ns with
  | none => d
  | some e =>
    let entries := objDel e k
    if entries.isEmpty then objDel d ns else objSet d ns entries

/-- Failure of the storage layer surfaced to the caller: the persisted data
could not be decoded (`JSON.parse` raised `SyntaxError`). -/
inductive CodecError where
  | malformedData
deriving DecidableEq

/-- The persisted `data.json` file as the codec sees it: empty text (a fresh
file created by `openFile`), the well-formed encoding of a document, or text
that is not valid JSON. -/
inductive DocFile where
  | empty
  | wellFormed (d : Doc)
  | malformed (s : String)

/-- The read–decode step `JSON.parse(text || '{}')` shared by every Document
Backend operation: empty text decodes to the empty document, well-formed text
to its document, and malformed text raises, which rejects the operation's
promise (the error propagates to the caller uncaught). -/
def loadDoc : DocFile → Except CodecError Doc
  | .empty => .ok []
  | .wellFormed d => .ok d
  | .malformed _ => .error .malformedData

/-! ## Indexed Backend (`lib/storage.js`, sqlite-based) -/

/-- The `value` column text of a row: either the encoding
`JSON.stringify(v)` of a JSON value, or raw text that `JSON.parse` rejects. -/
inductive StoredText where
  | enc (v : Json)
  | raw (s : String)

/-- One row of the `key_value_store` table. -/
structure Row where
  ns : String
  key : String
  val : StoredText

/-- The table state: a list of rows in rowid order.  The primary key
`(namespace, key)` keeps at most one row per pair; `INSERT OR REPLACE`
maintains this by construction. -/
abbrev Rows : Type := List Row

/-- Reading a row's `value` column back in `getValue`:
`try { JSON.parse(row.value) } catch (parseError) { row.value }` — a value
that does not parse is returned as the raw text itself (a string), not as an
error. -/
def decodeStored : StoredText → Json
  | .enc v => v
  | .raw s => .str s

/-- `setValue(namespace, key, value)` of the Indexed Backend:
`INSERT OR REPLACE INTO key_value_store ... VALUES (?, ?, JSON.stringify(value))`
deletes any row with the same primary key and inserts the new row (with a
fresh rowid, hence at the end). -/
def idxSet (rows : Rows) (ns k : String) (v : Json) : Rows :=
  rows.filter (fun r => !(r.ns == ns && r.key == k)) ++ [⟨ns, k, .enc v⟩]

/-- `getValue(namespace, key)` of the Indexed Backend with a key:
`SELECT value FROM key_value_store WHERE namespace = ? AND key = ?` via
`db.get`, resolving `undefined` when no row matches and the decoded value
otherwise. -/
def idxGet1 (rows : Rows) (ns k : String) : Option Json :=
  match rows.find? (fun r => r.ns == ns && r.key == k) with
  | none => none
  | some r => some (decodeStored r.val)

/-- `getValue(namespace)` of the Indexed Backend with the key omitted:
`SELECT key, value FROM key_value_store WHERE namespace = ?`, building an
object from the rows. -/
def idxGetAll (rows : Rows) (ns : String) : List (String × Json) :=
  (rows.filter (fun r => r.ns == ns)).map (fun r => (r.key, decodeStored r.val))

/-- `deleteValue(namespace, key)` of the Indexed Backend:
`DELETE FROM key_value_store WHERE namespace = ? AND key = ?`. -/
def idxDel (rows : Rows) (ns k : String) : Rows :=
  rows.filter (fun r => !(r.ns == ns && r.key == k))

/-- `deleteNamespace(namespace)` of the Indexed Backend:
`DELETE FROM key_value_store WHERE namespace = ?`. -/
def idxDelNs (rows : Rows) (ns : String) : Rows :=
  rows.filter (fun r => !(r.ns == ns))

/-- Inserting a string into a sorted duplicate-free list, keeping it sorted
and duplicate-free. -/
def insertSortedDedup (s : String) : List String → List String
  | [] => [s]
  | t :: rest =>
    if s = t then t :: rest
    else if s < t then s :: t :: rest
    else t :: insertSortedDedup s rest

/-- Sorting a list of strings while removing duplicates. -/
def sortedDedup : List String → List String
  | [] => []
  | s :: rest => insertSortedDedup s (sortedDedup rest)

/-- `getNamespaces()` of the Indexed Backend:
`SELECT DISTINCT namespace FROM key_value_store ORDER BY namespace` — the
distinct namespace values of the rows, in lexicographic (sqlite `BINARY`
collation) order. -/
def getNamespaces (rows : Rows) : List String :=
  sortedDedup (rows.map Row.ns)

/-! ## Operations, observations and traces -/

/-- One public storage operation common to both backends: upsert, single-key
get, whole-namespace get, and single-key delete.  (`deleteNamespace` and
`getNamespaces` are provided by the Indexed Backend only and are treated
separately.) -/
inductive Op where
  | set (ns k : String) (v : Json)
  | getK (ns k : String)
  | getNs (ns : String)
  | del (ns k : String)

/-- The observable result of one operation: a completion acknowledgement, a
single value (or absent), or a key-to-value mapping. -/
inductive Obs where
  | done
  | val (v : Option Json)
  | map (m : List (String × Json))

/-- Observable results agree: values are (deep-)equal, and mappings are
extensionally equal as key-to-value functions (JSON objects compare
deep-equal regardless of property insertion order). -/
def obsMatch : Obs → Obs → Prop
  | .done, .done => True
  | .val v1, .val v2 => v1 = v2
  | .map m1, .map m2 => ∀ k, objGet m1 k = objGet m2 k
  | _, _ => False

/-- State transition of the Document Backend for one operation (gets leave
the document unchanged). -/
def docStep (d : Doc) : Op → Doc
  | .set ns k v => docSet d ns k v
  | .del ns k => docDel d ns k
  | .getK _ _ => d
  | .getNs _ => d

/-- The observable result of one Document Backend operation. -/
def docOut (d : Doc) : Op → Obs
  | .set _ _ _ => .done
  | .del _ _ => .done
  | .getK ns k => .val (docGet1 d ns k)
  | .getNs ns => .map (docGetAll d ns)

/-- Running a sequence of operations on the Document Backend. -/
def docRun (d : Doc) (ops : List Op) : Doc := ops.foldl docStep d

/-- The observable results of a sequence of Document Backend operations. -/
def docTrace : Doc → List Op → List Obs
  | _, [] => []
  | d, op :: ops => docOut d op :: docTrace (docStep d op) ops

/-- State transition of the Indexed Backend for one operation. -/
def idxStep (rows : Rows) : Op → Rows
  | .set ns k v => idxSet rows ns k v
  | .del ns k => idxDel rows ns k
  | .getK _ _ => rows
  | .getNs _ => rows

/-- The observable result of one Indexed Backend operation. -/
def idxOut (rows : Rows) : Op → Obs
  | .set _ _ _ => .done
  | .del _ _ => .done
  | .getK ns k => .val (idxGet1 rows ns k)
  | .getNs ns => .map (idxGetAll rows ns)

/-- The observable results of a sequence of Indexed Backend operations. -/
def idxTrace : Rows → List Op → List Obs
  | _, [] => []
  | rows, op :: ops => idxOut rows op :: idxTrace (idxStep rows op) ops

/-- The two backends hold the same logical dataset: every `(namespace, key)`
lookup returns the same value. -/
def Agrees (d : Doc) (rows : Rows) : Prop :=
  ∀ ns k, docGet1 d ns k = idxGet1 rows ns k

/-- The dataset invariant of the Document Backend: no namespace exists with
zero entries. -/
def DocWF (d : Doc) : Prop := ∀ p ∈ d, p.2 ≠ []

/-- A full Document Backend operation including the read–decode step on the
persisted file: the decode failure of a malformed file rejects the promise;
`set` and `delete` write the updated document back, gets leave the file
untouched. -/
def docFileOp (f : DocFile) : Op → Except CodecError (DocFile × Obs)
  | .set ns k v => (loadDoc f).map fun d => (.wellFormed (docSet d ns k v), .done)
  | .del ns k => (loadDoc f).map fun d => (.wellFormed (docDel d ns k), .done)
  | .getK ns k => (loadDoc f).map fun d => (f, .val (docGet1 d ns k))
  | .getNs ns => (loadDoc f).map fun d => (f, .map (docGetAll d ns))

/-- The names exported by `module.exports` of the Document Backend module:
`{ openFile, setValue, getValue, deleteValue }`. -/
def documentBackendExports : List String :=
  ["openFile", "setValue", "getValue", "deleteValue"]

/-- The names exported by `module.exports` of the Indexed Backend module:
`{ setValue, getValue, deleteValue, getNamespaces, deleteNamespace, close }`. -/
def indexedBackendExports : List String :=
  ["setValue", "getValue", "deleteValue", "getNamespaces", "deleteNamespace", "close"]

/-! ## Basic lemmas on object operations -/

theorem objGet_objSet {α : Type} (o : List (String × α)) (a b : String) (v : α) :
    objGet (objSet o a v) b = if b = a then some v else objGet o b := by
  induction o with
  | nil =>
    by_cases h : b = a
    · subst h; simp [objSet, objGet]
    · have h' : ¬a = b := fun hh => h hh.symm
      simp [objSet, objGet, h, h']
  | cons p rest ih =>
    obtain ⟨k', v'⟩ := p
    by_cases hk : k' = a
    · subst hk
      by_cases h : b = k'
      · subst h; simp [objSet, objGet]
      · have h' : ¬k' = b := fun hh => h hh.symm
        simp [objSet, objGet, h, h']
    · by_cases h : b = k'
      · subst h
        simp [objSet, objGet, hk, Ne.symm hk]
      · simp [objSet, objGet, hk, Ne.symm h, h, ih]

theorem objGet_objDel {α : Type} (o : List (String × α)) (a b : String) :
    objGet (objDel o a) b = if b = a then none else objGet o b := by
  induction o with
  | nil =>
    by_cases h : b = a <;> simp [objDel, objGet, h]
  | cons p rest ih =>
    obtain ⟨k', v'⟩ := p
    by_cases hk : k' = a
    · subst hk
      by_cases h : b = k'
      · subst h; simp [objDel, objGet, ih]
      · simp [objDel, objGet, h, Ne.symm h, ih]
    · by_cases h : b = k'
      · subst h
        simp [objDel, objGet, hk, Ne.symm hk]
      · simp [objDel, objGet, hk, Ne.symm h, h, ih]

theorem objGet_eq_none_of_objDel_eq_nil {α : Type} (o : List (String × α))
    (a b : String) (hdel : objDel o a = []) (hne : b ≠ a) : objGet o b = none := by
  induction o with
  | nil => rfl
  | cons p rest ih =>
    obtain ⟨k', v'⟩ := p
    by_cases hk : k' = a
    · subst hk
      simp only [objDel, if_pos rfl] at hdel
      simpa [objGet, Ne.symm hne] using ih hdel
    · simp [objDel, hk] at hdel

theorem mem_objSet {α : Type} (o : List (String × α)) (a : String) (v : α)
    (p : String × α) (hp : p ∈ objSet o a v) : p ∈ o ∨ p = (a, v) := by
  induction o with
  | nil => simpa [objSet] using hp
  | cons q rest ih =>
    obtain ⟨k', v'⟩ := q
    by_cases hk : k' = a
    · subst hk
      rcases (by simpa [objSet] using hp : p = (k', v) ∨ p ∈ rest) with h | h
      · exact Or.inr (by simp [h])
      · exact Or.inl (List.mem_cons_of_mem _ h)
    · rcases (by simpa [objSet, hk] using hp : p = (k', v') ∨ p ∈ objSet rest a v) with h | h
      · exact Or.inl (by simp [h])
      · rcases ih h with h' | h'
        · exact Or.inl (List.mem_cons_of_mem _ h')
        · exact Or.inr h'

theorem mem_objDel {α : Type} (o : List (String × α)) (a : String)
    (p : String × α) (hp : p ∈ objDel o a) : p ∈ o := by
  induction o with
  | nil => exact absurd hp (by simp [objDel])
  | cons q rest ih =>
    obtain ⟨k', v'⟩ := q
    by_cases hk : k' = a
    · exact List.mem_cons_of_mem _ (ih (by simpa [objDel, hk] using hp))
    · rcases (by simpa [objDel, hk] using hp : p = (k', v') ∨ p ∈ objDel rest a) with h | h
      · simp [h]
      · exact List.mem_cons_of_mem _ (ih h)

theorem objSet_ne_nil {α : Type} (o : List (String × α)) (a : String) (v : α) :
    objSet o a v ≠ [] := by
  cases o with
  | nil => simp [objSet]
  | cons q rest =>
    obtain ⟨k', v'⟩ := q
    by_cases hk : k' = a <;> simp [objSet, hk]

/-! ## Get-after-mutation characterizations, Document Backend -/

theorem docSet_eq (d : Doc) (ns k : String) (v : Json) :
    docSet d ns k v = objSet d ns (objSet ((objGet d ns).getD []) k v) := rfl

theorem docGet1_eq_none (d : Doc) (ns k : String) (h : objGet d ns = none) :
    docGet1 d ns k = none := by
  unfold docGet1
  rw [h]

theorem docGet1_eq_objGet (d : Doc) (ns k : String) (e : List (String × Json))
    (h : objGet d ns = some e) : docGet1 d ns k = objGet e k := by
  unfold docGet1
  rw [h]

theorem docGet1_congr (d1 d2 : Doc) (ns k : String)
    (h : objGet d1 ns = objGet d2 ns) : docGet1 d1 ns k = docGet1 d2 ns k := by
  unfold docGet1
  rw [h]

theorem docGet1_docSet (d : Doc) (ns k ns' k' : String) (v : Json) :
    docGet1 (docSet d ns k v) ns' k' =
      if ns' = ns ∧ k' = k then some v else docGet1 d ns' k' := by
  rw [docSet_eq]
  by_cases hns : ns' = ns
  · subst hns
    rw [docGet1_eq_objGet _ _ _ (objSet ((objGet d ns').getD []) k v)
      (by rw [objGet_objSet, if_pos rfl])]
    rw [objGet_objSet]
    by_cases hk : k' = k
    · simp [hk]
    · simp only [hk, and_false, if_false, true_and]
      cases h : objGet d ns' with
      | none =>
        rw [docGet1_eq_none _ _ _ h]
        simp [h, objGet]
      | some e =>
        rw [docGet1_eq_objGet _ _ _ _ h]
        simp [h]
  · rw [docGet1_congr _ d _ _ (by rw [objGet_objSet, if_neg hns])]
    simp [hns]

theorem docDel_eq_of_none (d : Doc) (ns k : String) (h : objGet d ns = none) :
    docDel d ns k = d := by
  unfold docDel
  rw [h]

theorem docDel_eq_of_some (d : Doc) (ns k : String) (e : List (String × Json))
    (h : objGet d ns = some e) :
    docDel d ns k =
      if (objDel e k).isEmpty then objDel d ns else objSet d ns (objDel e k) := by
  unfold docDel
  rw [h]

theorem docGet1_docDel (d : Doc) (ns k ns' k' : String) :
    docGet1 (docDel d ns k) ns' k' =
      if ns' = ns ∧ k' = k then none else docGet1 d ns' k' := by
  cases h : objGet d ns with
  | none =>
    rw [docDel_eq_of_none _ _ _ h]
    by_cases hns : ns' = ns
    · subst hns
      simp [docGet1_eq_none _ _ _ h]
    · simp [hns]
  | some e =>
    rw [docDel_eq_of_some _ _ _ _ h]
    by_cases hemp : (objDel e k).isEmpty
    · rw [if_pos hemp]
      by_cases hns : ns' = ns
      · subst hns
        rw [docGet1_eq_none _ _ _ (by rw [objGet_objDel, if_pos rfl])]
        by_cases hk : k' = k
        · simp [hk]
        · simp only [hk, and_false, if_false]
          rw [docGet1_eq_objGet _ _ _ _ h,
            objGet_eq_none_of_objDel_eq_nil e k k' (List.isEmpty_iff.mp hemp) hk]
      · rw [docGet1_congr _ d _ _ (by rw [objGet_objDel, if_neg hns])]
        simp [hns]
    · rw [if_neg hemp]
      by_cases hns : ns' = ns
      · subst hns
        rw [docGet1_eq_objGet _ _ _ _ (by rw [objGet_objSet, if_pos rfl])]
        rw [objGet_objDel]
        by_cases hk : k' = k
        · simp [hk]
        · simp only [hk, and_false, if_false]
          rw [docGet1_eq_objGet _ _ _ _ h]
      · rw [docGet1_congr _ d _ _ (by rw [objGet_objSet, if_neg hns])]
        simp [hns]

/-! ## List lemmas used for the row-table operations -/

theorem find?_filter_of_imp {α : Type} (l : List α) (p q : α → Bool)
    (h : ∀ r, p r = true → q r = true) :
    (l.filter q).find? p = l.find? p := by
  induction l with
  | nil => rfl
  | cons a rest ih =>
    by_cases hq : q a
    · rw [List.filter_cons_of_pos hq]
      by_cases hp : p a
      · rw [List.find?_cons_of_pos _ hp, List.find?_cons_of_pos _ hp]
      · rw [List.find?_cons_of_neg _ hp, List.find?_cons_of_neg _ hp, ih]
    · have hp : ¬p a = true := fun hpa => hq (h a hpa)
      rw [List.filter_cons_of_neg hq, ih, List.find?_cons_of_neg _ hp]

theorem filter_filter_of_imp {α : Type} (l : List α) (p q : α → Bool)
    (h : ∀ r, p r = true → q r = true) :
    (l.filter q).filter p = l.filter p := by
  induction l with
  | nil => rfl
  | cons a rest ih =>
    by_cases hq : q a
    · rw [List.filter_cons_of_pos hq]
      by_cases hp : p a
      · rw [List.filter_cons_of_pos hp, List.filter_cons_of_pos hp, ih]
      · rw [List.filter_cons_of_neg hp, List.filter_cons_of_neg hp, ih]
    · have hp : ¬p a = true := fun hpa => hq (h a hpa)
      rw [List.filter_cons_of_neg hq, ih, List.filter_cons_of_neg hp]

theorem find?_eq_none_of_filter_out {α : Type} (l : List α) (p : α → Bool) :
    (l.filter (fun r => !p r)).find? p = none := by
  rw [List.find?_eq_none]
  intro x hx
  have := (List.mem_filter.mp hx).2
  simpa using this

/-! ## Get-after-mutation characterizations, Indexed Backend -/

theorem idxGet1_idxSet (rows : Rows) (ns k ns' k' : String) (v : Json) :
    idxGet1 (idxSet rows ns k v) ns' k' =
      if ns' = ns ∧ k' = k then some v else idxGet1 rows ns' k' := by
  unfold idxGet1 idxSet
  rw [List.find?_append]
  by_cases hm : ns' = ns ∧ k' = k
  · obtain ⟨h1, h2⟩ := hm
    subst h1; subst h2
    rw [if_pos ⟨rfl, rfl⟩]
    rw [find?_eq_none_of_filter_out]
    simp [decodeStored]
  · rw [if_neg hm]
    have hfind : (List.filter (fun r => !(r.ns == ns && r.key == k)) rows).find?
        (fun r => r.ns == ns' && r.key == k') =
        rows.find? (fun r => r.ns == ns' && r.key == k') := by
      apply find?_filter_of_imp
      intro r hr
      simp only [Bool.and_eq_true, beq_iff_eq] at hr
      simp only [Bool.not_eq_true', Bool.and_eq_false_iff, beq_eq_false_iff_ne]
      by_cases hns : r.ns = ns
      · right
        intro hkk
        exact hm ⟨hr.1.symm.trans hns, hr.2.symm.trans hkk⟩
      · left
        exact hns
    rw [hfind]
    cases hfound : rows.find? (fun r => r.ns == ns' && r.key == k') with
    | none =>
      have : ¬((⟨ns, k, .enc v⟩ : Row).ns == ns' && (⟨ns, k, .enc v⟩ : Row).key == k') = true := by
        simp only [Bool.and_eq_true, beq_iff_eq]
        intro hzz
        exact hm ⟨hzz.1.symm, hzz.2.symm⟩
      simp [List.find?, this]
    | some r => simp

theorem idxGet1_idxDel (rows : Rows) (ns k ns' k' : String) :
    idxGet1 (idxDel rows ns k) ns' k' =
      if ns' = ns ∧ k' = k then none else idxGet1 rows ns' k' := by
  unfold idxGet1 idxDel
  by_cases hm : ns' = ns ∧ k' = k
  · obtain ⟨h1, h2⟩ := hm
    subst h1; subst h2
    rw [if_pos ⟨rfl, rfl⟩, find?_eq_none_of_filter_out]
  · rw [if_neg hm]
    rw [find?_filter_of_imp]
    intro r hr
    simp only [Bool.and_eq_true, beq_iff_eq] at hr
    simp only [Bool.not_eq_true', Bool.and_eq_false_iff, beq_eq_false_iff_ne]
    by_cases hns : r.ns = ns
    · right
      intro hkk
      exact hm ⟨hr.1.symm.trans hns, hr.2.symm.trans hkk⟩
    · left
      exact hns

theorem idxGet1_idxDelNs (rows : Rows) (ns ns' k' : String) :
    idxGet1 (idxDelNs rows ns) ns' k' =
      if ns' = ns then none else idxGet1 rows ns' k' := by
  unfold idxGet1 idxDelNs
  by_cases hm : ns' = ns
  · subst hm
    rw [if_pos rfl]
    have : (rows.filter (fun r => !(r.ns == ns'))).find?
        (fun r => r.ns == ns' && r.key == k') = none := by
      rw [List.find?_eq_none]
      intro x hx
      have hq := (List.mem_filter.mp hx).2
      simp only [Bool.not_eq_true', beq_eq_false_iff_ne] at hq
      simp [hq]
    rw [this]
  · rw [if_neg hm]
    rw [find?_filter_of_imp]
    intro r hr
    simp only [Bool.and_eq_true, beq_iff_eq] at hr
    simp only [Bool.not_eq_true', beq_eq_false_iff_ne]
    exact fun hns => hm (hr.1.symm.trans hns)

/-! ## Whole-namespace reads agree with single-key reads pointwise -/

theorem objGet_docGetAll (d : Doc) (ns k : String) :
    objGet (docGetAll d ns) k = docGet1 d ns k := by
  unfold docGetAll
  cases h : objGet d ns with
  | none =>
    rw [docGet1_eq_none _ _ _ h]
    rfl
  | some e =>
    rw [docGet1_eq_objGet _ _ _ _ h]
    rfl

theorem objGet_idxGetAll (rows : Rows) (ns k : String) :
    objGet (idxGetAll rows ns) k = idxGet1 rows ns k := by
  unfold idxGetAll idxGet1
  induction rows with
  | nil => rfl
  | cons r rest ih =>
    by_cases hns : r.ns = ns
    · rw [List.filter_cons_of_pos (by simpa using hns)]
      by_cases hk : r.key = k
      · rw [List.find?_cons_of_pos _ (by simp [hns, hk])]
        simp [objGet, hk]
      · rw [List.find?_cons_of_neg _ (by simp [hk])]
        simpa [objGet, hk] using ih
    · rw [List.filter_cons_of_neg (by simpa using hns)]
      rw [List.find?_cons_of_neg _ (by simp [hns])]
      exact ih

/-! ## Frame lemmas for deletes -/

theorem objGet_docDel_ne (d : Doc) (ns k ns' : String) (hns : ns' ≠ ns) :
    objGet (docDel d ns k) ns' = objGet d ns' := by
  cases h : objGet d ns with
  | none => rw [docDel_eq_of_none _ _ _ h]
  | some e =>
    rw [docDel_eq_of_some _ _ _ _ h]
    by_cases hemp : (objDel e k).isEmpty
    · rw [if_pos hemp, objGet_objDel, if_neg hns]
    · rw [if_neg hemp, objGet_objSet, if_neg hns]

theorem idxGetAll_idxDel_ne (rows : Rows) (ns1 ns2 k : String) (hns : ns1 ≠ ns2) :
    idxGetAll (idxDel rows ns1 k) ns2 = idxGetAll rows ns2 := by
  unfold idxGetAll idxDel
  rw [filter_filter_of_imp]
  intro r hr
  simp only [beq_iff_eq] at hr
  simp only [Bool.not_eq_true', Bool.and_eq_false_iff, beq_eq_false_iff_ne]
  exact Or.inl (fun h => hns (h.symm.trans hr))

theorem idxGetAll_idxDelNs_ne (rows : Rows) (ns1 ns2 : String) (hns : ns1 ≠ ns2) :
    idxGetAll (idxDelNs rows ns1) ns2 = idxGetAll rows ns2 := by
  unfold idxGetAll idxDelNs
  rw [filter_filter_of_imp]
  intro r hr
  simp only [beq_iff_eq] at hr
  simp only [Bool.not_eq_true', beq_eq_false_iff_ne]
  exact fun h => hns (h.symm.trans hr)

theorem idxGetAll_idxDelNs_self (rows : Rows) (ns : String) :
    idxGetAll (idxDelNs rows ns) ns = [] := by
  unfold idxGetAll idxDelNs
  have : (rows.filter (fun r => !(r.ns == ns))).filter (fun r => r.ns == ns) = [] := by
    rw [List.filter_eq_nil_iff]
    intro r hr
    have hq := (List.mem_filter.mp hr).2
    simp only [Bool.not_eq_true', beq_eq_false_iff_ne] at hq
    simp [hq]
  rw [this]
  rfl

/-! ## Sorted deduplicated namespace listing -/

theorem mem_insertSortedDedup (s a : String) (l : List String) :
    a ∈ insertSortedDedup s l ↔ a = s ∨ a ∈ l := by
  induction l with
  | nil => simp [insertSortedDedup]
  | cons t rest ih =>
    by_cases h1 : s = t
    · subst h1
      have he : insertSortedDedup s (s :: rest) = s :: rest := by
        simp [insertSortedDedup]
      rw [he]
      simp only [List.mem_cons]
      tauto
    · by_cases h2 : s < t
      · have he : insertSortedDedup s (t :: rest) = s :: t :: rest := by
          simp [insertSortedDedup, h1, h2]
        rw [he]
        simp only [List.mem_cons]
      · have he : insertSortedDedup s (t :: rest) = t :: insertSortedDedup s rest := by
          simp [insertSortedDedup, h1, h2]
        rw [he]
        simp only [List.mem_cons, ih]
        tauto

theorem sorted_insertSortedDedup (s : String) (l : List String)
    (hl : l.Sorted (· < ·)) : (insertSortedDedup s l).Sorted (· < ·) := by
  induction l with
  | nil => simp [insertSortedDedup]
  | cons t rest ih =>
    rw [List.sorted_cons] at hl
    obtain ⟨ht, hrest⟩ := hl
    by_cases h1 : s = t
    · subst h1
      have he : insertSortedDedup s (s :: rest) = s :: rest := by
        simp [insertSortedDedup]
      rw [he, List.sorted_cons]
      exact ⟨ht, hrest⟩
    · by_cases h2 : s < t
      · have he : insertSortedDedup s (t :: rest) = s :: t :: rest := by
          simp [insertSortedDedup, h1, h2]
        rw [he, List.sorted_cons]
        refine ⟨?_, ?_⟩
        · intro b hb
          rcases List.mem_cons.mp hb with h | h
          · subst h; exact h2
          · exact lt_trans h2 (ht b h)
        · rw [List.sorted_cons]
          exact ⟨ht, hrest⟩
      · have he : insertSortedDedup s (t :: rest) = t :: insertSortedDedup s rest := by
          simp [insertSortedDedup, h1, h2]
        rw [he, List.sorted_cons]
        refine ⟨?_, ih hrest⟩
        intro b hb
        rcases (mem_insertSortedDedup s b rest).mp hb with h | h
        · rw [h]
          rcases lt_trichotomy s t with hlt | heq | hgt
          · exact absurd hlt h2
          · exact absurd heq h1
          · exact hgt
        · exact ht b h

theorem sorted_sortedDedup (l : List String) : (sortedDedup l).Sorted (· < ·) := by
  induction l with
  | nil => simp [sortedDedup]
  | cons s rest ih => exact sorted_insertSortedDedup s _ ih

theorem mem_sortedDedup (a : String) (l : List String) :
    a ∈ sortedDedup l ↔ a ∈ l := by
  induction l with
  | nil => simp [sortedDedup]
  | cons s rest ih =>
    simp [sortedDedup, mem_insertSortedDedup, ih]

/-! ## Agreement of the two backends on the common operations -/

theorem agrees_empty : Agrees [] [] := by
  intro ns k
  rfl

theorem agrees_step (d : Doc) (rows : Rows) (op : Op) (h : Agrees d rows) :
    Agrees (docStep d op) (idxStep rows op) := by
  cases op with
  | set ns k v =>
    intro ns' k'
    rw [docStep, idxStep, docGet1_docSet, idxGet1_idxSet, h ns' k']
  | getK ns k => exact h
  | getNs ns => exact h
  | del ns k =>
    intro ns' k'
    rw [docStep, idxStep, docGet1_docDel, idxGet1_idxDel, h ns' k']

theorem obsMatch_out (d : Doc) (rows : Rows) (op : Op) (h : Agrees d rows) :
    obsMatch (docOut d op) (idxOut rows op) := by
  cases op with
  | set ns k v => trivial
  | del ns k => trivial
  | getK ns k => exact h ns k
  | getNs ns =>
    intro k
    rw [objGet_docGetAll, objGet_idxGetAll]
    exact h ns k

theorem trace_match (ops : List Op) :
    ∀ (d : Doc) (rows : Rows), Agrees d rows →
      List.Forall₂ obsMatch (docTrace d ops) (idxTrace rows ops) := by
  induction ops with
  | nil =>
    intro d rows _
    exact List.Forall₂.nil
  | cons op rest ih =>
    intro d rows h
    exact List.Forall₂.cons (obsMatch_out d rows op h)
      (ih (docStep d op) (idxStep rows op) (agrees_step d rows op h))

/-! ## The Document Backend dataset invariant -/

theorem docWF_docSet (d : Doc) (ns k : String) (v : Json) (h : DocWF d) :
    DocWF (docSet d ns k v) := by
  intro p hp
  rw [docSet_eq] at hp
  rcases mem_objSet _ _ _ p hp with h' | h'
  · exact h p h'
  · rw [h']
    exact objSet_ne_nil _ _ _

theorem docWF_docDel (d : Doc) (ns k : String) (h : DocWF d) :
    DocWF (docDel d ns k) := by
  cases hg : objGet d ns with
  | none =>
    rw [docDel_eq_of_none _ _ _ hg]
    exact h
  | some e =>
    rw [docDel_eq_of_some _ _ _ _ hg]
    by_cases hemp : (objDel e k).isEmpty
    · rw [if_pos hemp]
      intro p hp
      exact h p (mem_objDel _ _ p hp)
    · rw [if_neg hemp]
      intro p hp
      rcases mem_objSet _ _ _ p hp with h' | h'
      · exact h p h'
      · rw [h']
        intro hnil
        exact hemp (List.isEmpty_iff.mpr hnil)

theorem docWF_docStep (d : Doc) (op : Op) (h : DocWF d) : DocWF (docStep d op) := by
  cases op with
  | set ns k v => exact docWF_docSet d ns k v h
  | del ns k => exact docWF_docDel d ns k h
  | getK ns k => exact h
  | getNs ns => exact h

theorem docWF_docRun (d : Doc) (ops : List Op) (h : DocWF d) : DocWF (docRun d ops) := by
  induction ops generalizing d with
  | nil => exact h
  | cons op rest ih => exact ih (docStep d op) (docWF_docStep d op h)

/-! ## Claim theorems -/

/-- C1 (counterexample): the claim that each of the five public operations is
provided by both backends is false — `deleteNamespace` and `getNamespaces`
(`listNamespaces`) are exported by the Indexed Backend's `module.exports`
but absent from the Document Backend's `module.exports`. -/
theorem c1_counterexample :
    "deleteNamespace" ∈ indexedBackendExports ∧
    "deleteNamespace" ∉ documentBackendExports ∧
    "getNamespaces" ∈ indexedBackendExports ∧
    "getNamespaces" ∉ documentBackendExports := by
  refine ⟨?_, ?_, ?_, ?_⟩ <;> decide

/-- C1 (amended): on the operations both backends do provide — `set`,
single-key `get`, whole-namespace `get` and single-key `delete` — every
sequence of operations applied to the same logical dataset (both starting
empty) produces pairwise agreeing observable results: equal values for
single-key gets and extensionally equal mappings (deep-equality, ignoring
property order) for whole-namespace gets. -/
theorem c1_common_operations_agree (ops : List Op) :
    List.Forall₂ obsMatch (docTrace [] ops) (idxTrace [] ops) :=
  trace_match ops [] [] agrees_empty

/-- C2 (counterexample): the Indexed Backend's `getValue` does not fail with
a `MalformedDataError` when the persisted row text is not valid JSON — it
silently converts the unparsable stored text into a returned string value. -/
theorem c2_counterexample :
    idxGet1 [⟨"users", "john", StoredText.raw "not valid json"⟩] "users" "john"
      = some (Json.str "not valid json") := rfl

/-- C2 (amended): the Document Backend propagates a decode failure uncaught —
every operation on a malformed persisted document fails with the malformed
data error — but the Indexed Backend's `getValue` never fails on an
unparsable row: it falls back to returning the raw stored text as a string,
both for single-key and for whole-namespace reads. -/
theorem c2_malformed_data_behavior :
    (∀ (s : String) (op : Op),
      docFileOp (DocFile.malformed s) op = .error .malformedData) ∧
    (∀ (rows : Rows) (ns k s : String),
      rows.find? (fun r => r.ns == ns && r.key == k) = some ⟨ns, k, .raw s⟩ →
      idxGet1 rows ns k = some (Json.str s)) ∧
    (∀ (pre post : Rows) (ns k s : String),
      objGet (idxGetAll (pre ++ ⟨ns, k, StoredText.raw s⟩ :: post) ns) k ≠ none) := by
  refine ⟨?_, ?_, ?_⟩
  · intro s op
    cases op <;> rfl
  · intro rows ns k s hfind
    unfold idxGet1
    rw [hfind]
    rfl
  · intro pre post ns k s
    rw [objGet_idxGetAll]
    unfold idxGet1
    rw [List.find?_append]
    cases hpre : pre.find? (fun r => r.ns == ns && r.key == k) with
    | some r => simp
    | none =>
      have hhd : ((⟨ns, k, StoredText.raw s⟩ : Row).ns == ns &&
          (⟨ns, k, StoredText.raw s⟩ : Row).key == k) = true := by simp
      simp [List.find?, hhd]

/-- C2 witness. -/
theorem c2_malformed_data_behavior_witness :
    docFileOp (DocFile.malformed "xyz") (Op.getK "a" "b")
        = .error .malformedData ∧
    idxGet1 [⟨"a", "b", StoredText.raw "oops"⟩] "a" "b"
        = some (Json.str "oops") ∧
    objGet (idxGetAll ([] ++ (⟨"a", "b", StoredText.raw "oops"⟩ : Row) :: []) "a") "b"
        ≠ none :=
  ⟨c2_malformed_data_behavior.1 "xyz" (Op.getK "a" "b"),
   c2_malformed_data_behavior.2.1 [⟨"a", "b", StoredText.raw "oops"⟩] "a" "b" "oops" rfl,
   c2_malformed_data_behavior.2.2 [] [] "a" "b" "oops"⟩

/-- C3: the invariant that no namespace has zero entries is preserved by every
operation sequence of the Document Backend; after `delete` removes the last
remaining key of a namespace, the namespace is absent from the document
(`get(ns)` returns the empty mapping); and on the Indexed Backend deleting
the last remaining key leaves the namespace absent from `getNamespaces()`
with `get(ns)` returning the empty mapping — a listed namespace always has
at least one entry by construction. -/
theorem c3_namespace_invariant :
    (∀ (d : Doc) (ops : List Op), DocWF d → DocWF (docRun d ops)) ∧
    (∀ (d : Doc) (ns k : String) (v : Json), objGet d ns = some [(k, v)] →
      objGet (docDel d ns k) ns = none ∧ docGetAll (docDel d ns k) ns = []) ∧
    (∀ (rows : Rows) (ns k : String), (∀ r ∈ rows, r.ns = ns → r.key = k) →
      ns ∉ getNamespaces (idxDel rows ns k) ∧ idxGetAll (idxDel rows ns k) ns = []) ∧
    (∀ (rows : Rows) (s : String), s ∈ getNamespaces rows → idxGetAll rows s ≠ []) := by
  refine ⟨docWF_docRun, ?_, ?_, ?_⟩
  · intro d ns k v h
    have hdel : docDel d ns k = objDel d ns := by
      rw [docDel_eq_of_some _ _ _ _ h]
      simp [objDel]
    constructor
    · rw [hdel, objGet_objDel, if_pos rfl]
    · unfold docGetAll
      rw [hdel, objGet_objDel, if_pos rfl]
      rfl
  · intro rows ns k hlast
    have hall : idxDel rows ns k = rows.filter (fun r => !(r.ns == ns)) := by
      unfold idxDel
      apply List.filter_congr
      intro r hr
      by_cases hns : r.ns = ns
      · simp [hns, hlast r hr hns]
      · simp [hns]
    constructor
    · rw [hall]
      unfold getNamespaces
      rw [mem_sortedDedup]
      intro hmem
      obtain ⟨r, hr, hrns⟩ := List.mem_map.mp hmem
      have := (List.mem_filter.mp hr).2
      rw [hrns] at this
      simp at this
    · rw [hall]
      unfold idxGetAll
      have : (rows.filter (fun r => !(r.ns == ns))).filter (fun r => r.ns == ns) = [] := by
        rw [List.filter_eq_nil_iff]
        intro r hr
        have hq := (List.mem_filter.mp hr).2
        simp only [Bool.not_eq_true', beq_eq_false_iff_ne] at hq
        simp [hq]
      rw [this]
      rfl
  · intro rows s hmem
    unfold getNamespaces at hmem
    rw [mem_sortedDedup] at hmem
    obtain ⟨r, hr, hrns⟩ := List.mem_map.mp hmem
    unfold idxGetAll
    intro hnil
    have : r ∈ rows.filter (fun r => r.ns == s) :=
      List.mem_filter.mpr ⟨hr, by simp [hrns]⟩
    rw [List.map_eq_nil_iff.mp hnil] at this
    exact absurd this (List.not_mem_nil r)

/-- C3 witness. -/
theorem c3_namespace_invariant_witness :
    DocWF (docRun [("users", [("john", Json.num 1)])] [Op.del "users" "john"]) ∧
    (objGet (docDel [("users", [("john", Json.num 1)])] "users" "john") "users" = none ∧
      docGetAll (docDel [("users", [("john", Json.num 1)])] "users" "john") "users" = []) ∧
    ("users" ∉ getNamespaces (idxDel [⟨"users", "john", StoredText.enc (Json.num 1)⟩] "users" "john") ∧
      idxGetAll (idxDel [⟨"users", "john", StoredText.enc (Json.num 1)⟩] "users" "john") "users" = []) ∧
    idxGetAll [⟨"users", "john", StoredText.enc (Json.num 1)⟩] "users" ≠ [] :=
  ⟨c3_namespace_invariant.1 [("users", [("john", Json.num 1)])] [Op.del "users" "john"]
      (by intro p hp; simp at hp; simp [hp]),
   c3_namespace_invariant.2.1 [("users", [("john", Json.num 1)])] "users" "john" (Json.num 1) rfl,
   c3_namespace_invariant.2.2.1 [⟨"users", "john", StoredText.enc (Json.num 1)⟩] "users" "john"
      (by intro r hr hns; simp at hr; simp [hr]),
   c3_namespace_invariant.2.2.2 [⟨"users", "john", StoredText.enc (Json.num 1)⟩] "users"
      (by unfold getNamespaces; rw [mem_sortedDedup]; simp)⟩

/-- C4: on either backend, `get(ns, k)` immediately after `set(ns, k, v)`
returns a value (deep-)equal to `v`, for every JSON-representable value `v`,
namespace and key, and every prior dataset. -/
theorem c4_round_trip (d : Doc) (rows : Rows) (ns k : String) (v : Json) :
    docGet1 (docSet d ns k v) ns k = some v ∧
    idxGet1 (idxSet rows ns k v) ns k = some v := by
  constructor
  · rw [docGet1_docSet, if_pos ⟨rfl, rfl⟩]
  · rw [idxGet1_idxSet, if_pos ⟨rfl, rfl⟩]

/-- C5: on either backend, a single-key `get` of an unset entry returns the
same absent result whether the whole namespace is missing or only the key is
missing within an existing namespace; a whole-namespace `get` of a missing
namespace returns the empty mapping, and on a well-formed persisted document
it succeeds (never fails). -/
theorem c5_absent_results :
    (∀ (d : Doc) (ns k : String), objGet d ns = none → docGet1 d ns k = none) ∧
    (∀ (d : Doc) (ns : String) (e : List (String × Json)) (k : String),
      objGet d ns = some e → objGet e k = none → docGet1 d ns k = none) ∧
    (∀ (d : Doc) (ns : String), objGet d ns = none →
      docFileOp (DocFile.wellFormed d) (Op.getNs ns) =
        .ok (DocFile.wellFormed d, Obs.map [])) ∧
    (∀ (rows : Rows) (ns k : String),
      rows.find? (fun r => r.ns == ns && r.key == k) = none →
      idxGet1 rows ns k = none) ∧
    (∀ (rows : Rows) (ns : String), (∀ r ∈ rows, r.ns ≠ ns) →
      idxGetAll rows ns = []) := by
  refine ⟨?_, ?_, ?_, ?_, ?_⟩
  · exact docGet1_eq_none
  · intro d ns e k h1 h2
    rw [docGet1_eq_objGet _ _ _ _ h1]
    exact h2
  · intro d ns h
    have he : docFileOp (DocFile.wellFormed d) (Op.getNs ns)
        = .ok (DocFile.wellFormed d, Obs.map (docGetAll d ns)) := rfl
    rw [he]
    unfold docGetAll
    rw [h]
    rfl
  · intro rows ns k h
    unfold idxGet1
    rw [h]
  · intro rows ns h
    unfold idxGetAll
    have : rows.filter (fun r => r.ns == ns) = [] := by
      rw [List.filter_eq_nil_iff]
      intro r hr
      simp [h r hr]
    rw [this]
    rfl

/-- C5 witness. -/
theorem c5_absent_results_witness :
    docGet1 [] "missing" "k" = none ∧
    docGet1 [("users", [("john", Json.null)])] "users" "jane" = none ∧
    docFileOp (DocFile.wellFormed []) (Op.getNs "missing") =
        .ok (DocFile.wellFormed [], Obs.map []) ∧
    idxGet1 [] "missing" "k" = none ∧
    idxGetAll [⟨"users", "john", StoredText.enc Json.null⟩] "missing" = [] :=
  ⟨c5_absent_results.1 [] "missing" "k" rfl,
   c5_absent_results.2.1 [("users", [("john", Json.null)])] "users"
      [("john", Json.null)] "jane" rfl rfl,
   c5_absent_results.2.2.1 [] "missing" rfl,
   c5_absent_results.2.2.2.1 [] "missing" "k" rfl,
   c5_absent_results.2.2.2.2 [⟨"users", "john", StoredText.enc Json.null⟩] "missing"
      (by intro r hr; simp at hr; simp [hr])⟩

/-- C6: on either backend, `set(ns, k, v1)` then `set(ns, k, v2)` then
`get(ns, k)` returns `v2` — `set` overwrites in place with last-write-wins
semantics. -/
theorem c6_overwrite (d : Doc) (rows : Rows) (ns k : String) (v1 v2 : Json) :
    docGet1 (docSet (docSet d ns k v1) ns k v2) ns k = some v2 ∧
    idxGet1 (idxSet (idxSet rows ns k v1) ns k v2) ns k = some v2 := by
  constructor
  · rw [docGet1_docSet, if_pos ⟨rfl, rfl⟩]
  · rw [idxGet1_idxSet, if_pos ⟨rfl, rfl⟩]

/-- C7: `delete(ns1, k)` leaves every entry of any other namespace unchanged
on either backend, including a same-named key; `deleteNamespace(ns)` (Indexed
Backend) removes every key under `ns` and leaves every other namespace's
entries unchanged. -/
theorem c7_namespace_isolation :
    (∀ (d : Doc) (ns1 ns2 k k' : String), ns2 ≠ ns1 →
      docGet1 (docDel d ns1 k) ns2 k' = docGet1 d ns2 k' ∧
      docGetAll (docDel d ns1 k) ns2 = docGetAll d ns2) ∧
    (∀ (rows : Rows) (ns1 ns2 k k' : String), ns2 ≠ ns1 →
      idxGet1 (idxDel rows ns1 k) ns2 k' = idxGet1 rows ns2 k' ∧
      idxGetAll (idxDel rows ns1 k) ns2 = idxGetAll rows ns2) ∧
    (∀ (rows : Rows) (ns k : String), idxGet1 (idxDelNs rows ns) ns k = none) ∧
    (∀ (rows : Rows) (ns : String), idxGetAll (idxDelNs rows ns) ns = []) ∧
    (∀ (rows : Rows) (ns1 ns2 k : String), ns2 ≠ ns1 →
      idxGet1 (idxDelNs rows ns1) ns2 k = idxGet1 rows ns2 k ∧
      idxGetAll (idxDelNs rows ns1) ns2 = idxGetAll rows ns2) := by
  refine ⟨?_, ?_, ?_, idxGetAll_idxDelNs_self, ?_⟩
  · intro d ns1 ns2 k k' hne
    constructor
    · rw [docGet1_docDel]
      simp [hne]
    · unfold docGetAll
      rw [objGet_docDel_ne _ _ _ _ hne]
  · intro rows ns1 ns2 k k' hne
    constructor
    · rw [idxGet1_idxDel]
      simp [hne]
    · exact idxGetAll_idxDel_ne rows ns1 ns2 k (fun h => hne h.symm)
  · intro rows ns k
    rw [idxGet1_idxDelNs, if_pos rfl]
  · intro rows ns1 ns2 k hne
    constructor
    · rw [idxGet1_idxDelNs, if_neg hne]
    · exact idxGetAll_idxDelNs_ne rows ns1 ns2 (fun h => hne h.symm)

/-- C7 witness. -/
theorem c7_namespace_isolation_witness :
    (docGet1 (docDel [("a", [("k", Json.null)]), ("b", [("k", Json.bool true)])] "a" "k") "b" "k"
        = docGet1 [("a", [("k", Json.null)]), ("b", [("k", Json.bool true)])] "b" "k" ∧
      docGetAll (docDel [("a", [("k", Json.null)]), ("b", [("k", Json.bool true)])] "a" "k") "b"
        = docGetAll [("a", [("k", Json.null)]), ("b", [("k", Json.bool true)])] "b") ∧
    (idxGet1 (idxDel [⟨"a", "k", StoredText.enc Json.null⟩] "a" "k") "b" "k"
        = idxGet1 [⟨"a", "k", StoredText.enc Json.null⟩] "b" "k") ∧
    (idxGet1 (idxDelNs [⟨"a", "k", StoredText.enc Json.null⟩] "b") "a" "k"
        = idxGet1 [⟨"a", "k", StoredText.enc Json.null⟩] "a" "k") :=
  ⟨c7_namespace_isolation.1 [("a", [("k", Json.null)]), ("b", [("k", Json.bool true)])]
      "a" "b" "k" "k" (by decide),
   (c7_namespace_isolation.2.1 [⟨"a", "k", StoredText.enc Json.null⟩]
      "a" "b" "k" "k" (by decide)).1,
   (c7_namespace_isolation.2.2.2.2 [⟨"a", "k", StoredText.enc Json.null⟩]
      "b" "a" "k" (by decide)).1⟩

/-- C8: `listNamespaces()` (`getNamespaces`, Indexed Backend) returns exactly
the namespaces having at least one entry, lexicographically ordered, with no
duplicates. -/
theorem c8_list_namespaces (rows : Rows) :
    (∀ s, s ∈ getNamespaces rows ↔ ∃ r ∈ rows, r.ns = s) ∧
    (getNamespaces rows).Sorted (· < ·) ∧
    (getNamespaces rows).Nodup := by
  refine ⟨?_, sorted_sortedDedup _, (sorted_sortedDedup _).nodup⟩
  intro s
  unfold getNamespaces
  rw [mem_sortedDedup, List.mem_map]

/-- C9: an empty persisted document decodes to the empty dataset, not an
error: every Document Backend operation behaves on the empty file exactly as
on a well-formed empty document — the same observable result and the same
decoded successor state — and in particular `get(ns, k)` returns absent and
`get(ns)` returns the empty mapping. -/
theorem c9_empty_input :
    (∀ op : Op, ∃ (f1 f2 : DocFile) (obs : Obs),
      docFileOp DocFile.empty op = .ok (f1, obs) ∧
      docFileOp (DocFile.wellFormed []) op = .ok (f2, obs) ∧
      loadDoc f1 = loadDoc f2) ∧
    (∀ ns k : String,
      docFileOp DocFile.empty (Op.getK ns k) = .ok (DocFile.empty, Obs.val none)) ∧
    (∀ ns : String,
      docFileOp DocFile.empty (Op.getNs ns) = .ok (DocFile.empty, Obs.map [])) := by
  refine ⟨?_, ?_, ?_⟩
  · intro op
    cases op with
    | set ns k v =>
      exact ⟨.wellFormed (docSet [] ns k v), .wellFormed (docSet [] ns k v), .done,
        rfl, rfl, rfl⟩
    | del ns k =>
      exact ⟨.wellFormed (docDel [] ns k), .wellFormed (docDel [] ns k), .done,
        rfl, rfl, rfl⟩
    | getK ns k =>
      exact ⟨.empty, .wellFormed [], .val (docGet1 [] ns k), rfl, rfl, rfl⟩
    | getNs ns =>
      exact ⟨.empty, .wellFormed [], .map (docGetAll [] ns), rfl, rfl, rfl⟩
  · intro ns k
    rfl
  · intro ns
    rfl

/-- C10: on the Document Backend, `set(ns, k, undefined)` succeeds, leaves
namespace `ns` present at the top level of the persisted document, stores no
entry under `k` (the `undefined` value encodes to absence), and from the
empty dataset produces a document containing a namespace with zero
entries. -/
theorem c10_undefined_set (d : Doc) (ns k : String) :
    (∃ e, objGet (docSetU d ns k none) ns = some e ∧ objGet e k = none) ∧
    docSetU ([] : Doc) ns k none = [(ns, [])] := by
  constructor
  · refine ⟨objDel ((objGet d ns).getD []) k, ?_, ?_⟩
    · show objGet (objSet d ns _) ns = _
      rw [objGet_objSet, if_pos rfl]
    · rw [objGet_objDel, if_pos rfl]
  · show objSet [] ns (objDel ((objGet ([] : Doc) ns).getD []) k) = [(ns, [])]
    rfl

end CStore
